import Mathlib

/-!
Shallow embedding of `smart-router.js` (class `SmartRouter`): cosine
similarity, keyword extraction, similarity ranking, construction, handling
of embedding-provider responses, and the initialisation state machine,
together with theorems about their behaviour.

Numbers are modelled as real numbers (exact arithmetic, so no NaN value
exists; the one place JavaScript can produce a NaN — the `0/0` guarded by
`|| 0` in `calculateCosineSimilarity` — is translated into an explicit zero
test on the denominator, see the comment there).  JavaScript peculiarities
are translated explicitly where they matter: truthiness of the empty string
in the credential check and in `data.error?.message || '...'`, and
`Array.prototype.join` rendering a `null` element as the empty string.
-/

namespace SmartRouter

/-- Loop of `calculateCosineSimilarity`: running over the indices of the
first vector, accumulate `(dotProduct, norm1, norm2)`.  An out-of-range read
of the second vector is modelled as 0; the claims only concern vectors of
equal dimensionality, where no such read happens (in JavaScript it would
poison the sums with NaN). -/
noncomputable def simSums : List ℝ → List ℝ → ℝ × ℝ × ℝ
  | [], _ => (0, 0, 0)
  | a :: as, bs =>
    let b := bs.headD 0
    let rest := simSums as bs.tail
    (rest.1 + a * b, rest.2.1 + a * a, rest.2.2 + b * b)

/-- Componentwise dot product of two vectors. -/
noncomputable def dotProd (a b : List ℝ) : ℝ :=
  (List.zipWith (fun x y => x * y) a b).sum

/-- Sum of the squares of the entries of a vector. -/
noncomputable def sumSq (v : List ℝ) : ℝ :=
  (v.map (fun x => x * x)).sum

/-- Magnitude (Euclidean norm) of a vector, as in `Math.sqrt(norm)`. -/
noncomputable def magnitude (v : List ℝ) : ℝ :=
  Real.sqrt (sumSq v)

/-- Model of `calculateCosineSimilarity`: the dot product over the product of the two
magnitudes.  The JavaScript source ends in `|| 0`, which replaces a falsy
quotient by 0; in exact arithmetic the quotient is `0/0` exactly when the
denominator is zero (a zero denominator forces every contributing entry,
hence the dot product, to be zero), so the guard is translated as an
explicit zero test on the denominator. -/
noncomputable def calculateCosineSimilarity (embedding1 embedding2 : List ℝ) : ℝ :=
  let s := simSums embedding1 embedding2
  let denom := Real.sqrt s.2.1 * Real.sqrt s.2.2
  if denom = 0 then 0 else s.1 / denom

/-- One stored repository record: description text, keyword list and the
embedding vector the provider returned for it. -/
structure RepositoryRecord where
  description : String
  keywords : List String
  embedding : List ℝ

/-- Score each stored repository, in the mapping's iteration order, against
the embedding of the input description (the loop body of `findMatches`). -/
noncomputable def scoreMatches (repos : List (String × RepositoryRecord))
    (descEmbedding : List ℝ) : List (String × ℝ) :=
  repos.map (fun p => (p.1, calculateCosineSimilarity descEmbedding p.2.embedding))

/-- Stable descending insertion: `x` is placed before the first element
whose similarity is at most `x`'s — after every strictly greater element,
and before ties that came later in the input. -/
noncomputable def insertDesc (x : String × ℝ) : List (String × ℝ) → List (String × ℝ)
  | [] => [x]
  | y :: ys => if y.2 ≤ x.2 then x :: y :: ys else y :: insertDesc x ys

/-- Stable sort by descending similarity, the model of
`.sort((a, b) => b.similarity - a.similarity)` (ECMAScript `Array.sort` is
required to be stable, and any stable sort of a total preorder produces
this list). -/
noncomputable def sortDesc : List (String × ℝ) → List (String × ℝ)
  | [] => []
  | x :: xs => insertDesc x (sortDesc xs)

/-- Model of `findMatches`, given the embedding the provider returned for the input
description: score every stored repository, sort stably by descending
similarity, keep the names. -/
noncomputable def findMatches (repos : List (String × RepositoryRecord))
    (descEmbedding : List ℝ) : List String :=
  (sortDesc (scoreMatches repos descEmbedding)).map Prod.fst

/-- Word characters of the regular expression class `\w`: ASCII letters,
digits and the underscore. -/
def isWordChar (c : Char) : Bool := c.isAlphanum || c == '_'

/-- Model of `.replace(/[^\w\s]/g, ' ')` on a character list: every character that is
neither a word character nor whitespace becomes a space. -/
def sanitize (cs : List Char) : List Char :=
  cs.map (fun c => if isWordChar c || c.isWhitespace then c else ' ')

/-- Split a character list at whitespace characters, keeping (possibly
empty) chunks; `acc` holds the current chunk reversed.  Splitting at every
single whitespace character differs from the `/\s+/` split only in empty
chunks, all of which the length filter below removes. -/
def splitChunks : List Char → List Char → List (List Char)
  | [], acc => [acc.reverse]
  | c :: rest, acc =>
    if c.isWhitespace then acc.reverse :: splitChunks rest []
    else splitChunks rest (c :: acc)

/-- Tokens produced by
`.toLowerCase().replace(/[^\w\s]/g, ' ').split(/\s+/).filter(w => w.length > 2)`. -/
def extractWords (s : String) : List String :=
  ((splitChunks (sanitize (s.data.map Char.toLower)) []).map
    (fun l => String.mk l)).filter (fun w => 2 < w.length)

/-- Model of `Set.prototype.add` on an insertion-ordered list: a new element is
appended; an element already present keeps its original position. -/
def setAdd (s : List String) (x : String) : List String :=
  if x ∈ s then s else s ++ [x]

/-- The fields of a fetched repository that `extractKeywords` and
`processRepositories` read. -/
structure Repo where
  full_name : String
  name : String
  description : Option String
  topics : List String

/-- Model of `[repo.name, repo.description].join(' ')` — `Array.prototype.join`
renders a `null` element as the empty string. -/
def joinNameDescription (r : Repo) : String :=
  r.name ++ " " ++ (match r.description with | some d => d | none => "")

/-- Model of `extractKeywords`: the topics first, then the filtered tokens of the
joined name and description; duplicates keep their first position. -/
def extractKeywords (repo : Repo) : List String :=
  (extractWords (joinNameDescription repo)).foldl setAdd (repo.topics.foldl setAdd [])

/-- The repository of the worked keyword-extraction example. -/
def exampleRepo : Repo where
  full_name := "octocat/My-Repo!"
  name := "My-Repo!"
  description := some ("A cool tool")
  topics := ["cli", "go"]

/-- The two environment variables the constructor reads; `none` models an
unset variable. -/
structure Env where
  githubToken : Option String
  voyageApiKey : Option String

/-- Truthiness of an environment value in JavaScript: `undefined` and the
empty string are falsy; every other string is truthy. -/
def jsTruthy : Option String → Bool
  | none => false
  | some s => !(s == "")

/-- Fields the constructor initialises on the instance. -/
structure RouterInit where
  octokitAuth : String
  repositories : List (String × RepositoryRecord)
  voyageAuthHeader : String

/-- Network calls the model can observe. -/
inductive NetworkCall where
  | github (endpoint : String)
  | voyage (input : String)

/-- The `SmartRouter` constructor: check the two credentials, then set up
the client, the empty repository mapping and the request headers.  The
second component lists the network calls the constructor performs: none —
the constructor body only reads configuration and assigns fields. -/
noncomputable def constructSmartRouter (env : Env) :
    Except String RouterInit × List NetworkCall :=
  if !jsTruthy env.githubToken || !jsTruthy env.voyageApiKey then
    (Except.error ("Missing required environment variables: GITHUB_TOKEN and/or VOYAGE_API_KEY"),
      [])
  else
    (Except.ok ⟨env.githubToken.getD (""), [], ("Bearer ") ++ env.voyageApiKey.getD ("")⟩, [])

/-- A parsed embeddings-endpoint response: HTTP success flag, the optional
`data.error?.message` field, and the `data.data[i].embedding` vectors. -/
structure VoyageResponse where
  ok : Bool
  errorMessage : Option String
  embeddings : List (List ℝ)

/-- Handling of a parsed response inside `createEmbedding`: on a non-success
status, throw `data.error?.message || 'Failed to create embedding'` — the
generic message is used when the message field is missing or is the empty
string (JavaScript truthiness); on success return the first embedding (an
empty data array would raise a TypeError at `data.data[0].embedding`,
modelled as an error). -/
noncomputable def processVoyageResponse (resp : VoyageResponse) : Except String (List ℝ) :=
  if resp.ok then
    match resp.embeddings with
    | e :: _ => Except.ok e
    | [] => Except.error ("TypeError: data.data[0] is undefined")
  else
    Except.error (match resp.errorMessage with
      | some m => if m == "" then "Failed to create embedding" else m
      | none => "Failed to create embedding")

/-- Model of `createEmbedding` as a function of the outcome of its single `fetch`;
an `Except.error` input covers a network-level failure or a body that fails
to parse, both caught and rethrown unchanged by the surrounding catch.  The
second component counts the fetches performed: always exactly one — no
retry. -/
noncomputable def createEmbedding (fetchOutcome : Except String VoyageResponse) :
    Except String (List ℝ) × Nat :=
  (match fetchOutcome with
   | Except.error e => Except.error e
   | Except.ok resp => processVoyageResponse resp, 1)

/-- Outcomes of the external calls the initialisation may make, fixed up
front: the organisation listing, the user repository listing, each
organisation's repository listing (first page), and the embedding returned
for each input text. -/
structure World where
  orgsResult : Except String (List String)
  userReposResult : Except String (List Repo)
  orgReposResult : String → Except String (List Repo)
  embedResult : String → Except String (List ℝ)

/-- A repository mapping together with the error, if any, that aborted the
run which produced it. -/
structure InitOutcome where
  state : List (String × RepositoryRecord)
  error : Option String

/-- Model of `this.repositories[key] = record` on a JavaScript object whose keys are
non-index strings: an existing key keeps its position and receives the new
record; a new key is appended. -/
def mapSet (st : List (String × RepositoryRecord)) (k : String) (v : RepositoryRecord) :
    List (String × RepositoryRecord) :=
  if st.any (fun p => p.1 == k) then
    st.map (fun p => if p.1 == k then (k, v) else p)
  else st ++ [(k, v)]

/-- Model of `processRepositories`: for each repository in order, build the keyword
list and the description, request one embedding
(`` `${description} ${keywords.join(' ')}` ``), and commit the record; the
first failing embedding call aborts with that error, keeping everything
committed so far. -/
noncomputable def processRepositories (w : World) (repos : List Repo)
    (st : List (String × RepositoryRecord)) : InitOutcome :=
  match repos with
  | [] => ⟨st, none⟩
  | repo :: rest =>
    let keywords := extractKeywords repo
    let description := repo.description.getD ("")
    match w.embedResult (description ++ " " ++ String.intercalate (" ") keywords) with
    | Except.error e => ⟨st, some e⟩
    | Except.ok emb =>
      processRepositories w rest (mapSet st repo.full_name ⟨description, keywords, emb⟩)

/-- The per-organisation loop of the initialisation: fetch each
organisation's repositories and process them; a failing listing aborts with
that error. -/
noncomputable def initOrgs (w : World) (orgs : List String)
    (st : List (String × RepositoryRecord)) : InitOutcome :=
  match orgs with
  | [] => ⟨st, none⟩
  | org :: rest =>
    match w.orgReposResult org with
    | Except.error e => ⟨st, some e⟩
    | Except.ok repos =>
      let o := processRepositories w repos st
      match o.error with
      | some _ => o
      | none => initOrgs w rest o.state

/-- The `initialize` method: list the organisations, process the user's own
repositories, then each organisation's; the first failure aborts the whole
run and its error is rethrown unchanged (the catch only logs). -/
noncomputable def initRouter (w : World) : InitOutcome :=
  match w.orgsResult with
  | Except.error e => ⟨[], some e⟩
  | Except.ok orgs =>
    match w.userReposResult with
    | Except.error e => ⟨[], some e⟩
    | Except.ok userRepos =>
      let o := processRepositories w userRepos []
      match o.error with
      | some _ => o
      | none => initOrgs w orgs o.state

/-- The error strings the modelled external calls can produce. -/
def worldError (w : World) (e : String) : Prop :=
  w.orgsResult = Except.error e ∨ w.userReposResult = Except.error e ∨
    (∃ org, w.orgReposResult org = Except.error e) ∨
    (∃ t, w.embedResult t = Except.error e)

/-- A world whose very first call, the organisation listing, fails. -/
noncomputable def failingWorld : World where
  orgsResult := Except.error ("org listing failed")
  userReposResult := Except.ok []
  orgReposResult := fun _ => Except.ok []
  embedResult := fun _ => Except.ok []

/-- Model of `findMatches` as a state transformer on the constructed router, for the
frame property: it reads the repository mapping and writes nothing. -/
noncomputable def findMatchesOp (st : RouterInit) (descEmbedding : List ℝ) :
    List String × RouterInit :=
  (findMatches st.repositories descEmbedding, st)

/-- On vectors of equal length the similarity loop computes the dot product
and the two full sums of squares. -/
theorem simSums_eq (a : List ℝ) : ∀ (b : List ℝ), a.length = b.length →
    simSums a b = (dotProd a b, sumSq a, sumSq b) := by
  induction a with
  | nil =>
    intro b h
    cases b with
    | nil => simp [simSums, dotProd, sumSq]
    | cons y ys => simp at h
  | cons x xs ih =>
    intro b h
    cases b with
    | nil => simp at h
    | cons y ys =>
      have h' : xs.length = ys.length := by simpa using h
      simp only [simSums, List.headD_cons, List.tail_cons, ih ys h', dotProd, sumSq,
        List.zipWith_cons_cons, List.map_cons, List.sum_cons]
      refine congrArg₂ Prod.mk ?_ (congrArg₂ Prod.mk ?_ ?_) <;> ring

/-- A sum of squares is nonnegative. -/
theorem sumSq_nonneg (v : List ℝ) : 0 ≤ sumSq v := by
  refine List.sum_nonneg ?_
  intro x hx
  rcases List.mem_map.mp hx with ⟨y, _, rfl⟩
  exact mul_self_nonneg y

/-- A sum of squares vanishes exactly on the all-zero vector. -/
theorem sumSq_eq_zero_iff (v : List ℝ) : sumSq v = 0 ↔ ∀ x ∈ v, x = 0 := by
  induction v with
  | nil => simp [sumSq]
  | cons x xs ih =>
    have hx : (0 : ℝ) ≤ x * x := mul_self_nonneg x
    have hxs : 0 ≤ sumSq xs := sumSq_nonneg xs
    simp only [sumSq, List.map_cons, List.sum_cons, List.mem_cons]
    rw [show ((xs.map fun x => x * x).sum) = sumSq xs from rfl,
      add_eq_zero_iff_of_nonneg hx hxs, mul_self_eq_zero]
    constructor
    · rintro ⟨h1, h2⟩ y hy
      rcases hy with rfl | hy
      · exact h1
      · exact (ih.mp h2) y hy
    · intro hall
      exact ⟨hall x (Or.inl rfl), ih.mpr fun y hy => hall y (Or.inr hy)⟩

/-- The dot product is symmetric (componentwise multiplication commutes). -/
theorem dotProd_comm (a : List ℝ) : ∀ b : List ℝ, dotProd a b = dotProd b a := by
  induction a with
  | nil => intro b; cases b <;> simp [dotProd]
  | cons x xs ih =>
    intro b
    cases b with
    | nil => simp [dotProd]
    | cons y ys =>
      simp only [dotProd, List.zipWith_cons_cons, List.sum_cons] at ih ⊢
      rw [mul_comm, ih ys]

/-- Claim C1: for vectors of equal dimensionality, if either vector is
all-zero the similarity is 0 (the `|| 0` guard, so never NaN — the model
has no NaN and the value is exactly 0); otherwise it is the dot product
divided by the product of the two magnitudes. -/
theorem C1_similarity_zero_guard (a b : List ℝ) (h : a.length = b.length) :
    ((∀ x ∈ a, x = 0) ∨ (∀ x ∈ b, x = 0) → calculateCosineSimilarity a b = 0) ∧
    (¬ ((∀ x ∈ a, x = 0) ∨ (∀ x ∈ b, x = 0)) →
      calculateCosineSimilarity a b = dotProd a b / (magnitude a * magnitude b)) := by
  have hs := simSums_eq a b h
  simp only [calculateCosineSimilarity, hs]
  constructor
  · rintro (ha | hb)
    · rw [(sumSq_eq_zero_iff a).mpr ha, Real.sqrt_zero, zero_mul, if_pos rfl]
    · rw [(sumSq_eq_zero_iff b).mpr hb, Real.sqrt_zero, mul_zero, if_pos rfl]
  · intro hn
    have ha : sumSq a ≠ 0 := fun e => hn (Or.inl ((sumSq_eq_zero_iff a).mp e))
    have hb : sumSq b ≠ 0 := fun e => hn (Or.inr ((sumSq_eq_zero_iff b).mp e))
    have hA : 0 < sumSq a := lt_of_le_of_ne (sumSq_nonneg a) (Ne.symm ha)
    have hB : 0 < sumSq b := lt_of_le_of_ne (sumSq_nonneg b) (Ne.symm hb)
    rw [if_neg (ne_of_gt (mul_pos (Real.sqrt_pos.mpr hA) (Real.sqrt_pos.mpr hB)))]
    rfl

/-- Witness for C1 at the concrete pair `[0, 0]`, `[1, 2]`. -/
theorem C1_similarity_zero_guard_witness :
    (([0, 0] : List ℝ).length = ([1, 2] : List ℝ).length) ∧
    calculateCosineSimilarity ([0, 0] : List ℝ) ([1, 2] : List ℝ) = 0 :=
  ⟨rfl, (C1_similarity_zero_guard [0, 0] [1, 2] rfl).1 (Or.inl (by
    intro x hx
    rcases List.mem_cons.mp hx with rfl | hx
    · rfl
    · rcases List.mem_cons.mp hx with rfl | hx
      · rfl
      · simp at hx))⟩

/-- Claim C6: cosine similarity is symmetric on vectors of equal length. -/
theorem C6_similarity_symm (a b : List ℝ) (h : a.length = b.length) :
    calculateCosineSimilarity a b = calculateCosineSimilarity b a := by
  simp only [calculateCosineSimilarity, simSums_eq a b h, simSums_eq b a h.symm]
  rw [dotProd_comm a b, mul_comm (Real.sqrt (sumSq a)) (Real.sqrt (sumSq b))]

/-- Witness for C6 at the concrete pair `[1, 2]`, `[3, 4]`. -/
theorem C6_similarity_symm_witness :
    (([1, 2] : List ℝ).length = ([3, 4] : List ℝ).length) ∧
    calculateCosineSimilarity ([1, 2] : List ℝ) ([3, 4] : List ℝ) =
      calculateCosineSimilarity ([3, 4] : List ℝ) ([1, 2] : List ℝ) :=
  ⟨rfl, C6_similarity_symm [1, 2] [3, 4] rfl⟩

/-- Membership in an insertion. -/
theorem mem_insertDesc (z x : String × ℝ) (l : List (String × ℝ)) :
    z ∈ insertDesc x l ↔ z = x ∨ z ∈ l := by
  induction l with
  | nil => simp [insertDesc]
  | cons y ys ih =>
    by_cases h : y.2 ≤ x.2
    · simp [insertDesc, h]
    · simp only [insertDesc, if_neg h, List.mem_cons, ih]
      tauto

/-- Insertion produces a permutation of consing. -/
theorem insertDesc_perm (x : String × ℝ) (l : List (String × ℝ)) :
    List.Perm (insertDesc x l) (x :: l) := by
  induction l with
  | nil => simp [insertDesc]
  | cons y ys ih =>
    by_cases h : y.2 ≤ x.2
    · simp [insertDesc, h]
    · rw [insertDesc, if_neg h]
      exact List.Perm.trans (List.Perm.cons y ih) (List.Perm.swap x y ys)

/-- The stable sort permutes its input. -/
theorem sortDesc_perm (l : List (String × ℝ)) : List.Perm (sortDesc l) l := by
  induction l with
  | nil => simp [sortDesc]
  | cons x xs ih =>
    exact List.Perm.trans (insertDesc_perm x (sortDesc xs)) (List.Perm.cons x ih)

/-- Insertion preserves the descending order invariant. -/
theorem pairwise_insertDesc (x : String × ℝ) (l : List (String × ℝ))
    (hl : List.Pairwise (fun a b => b.2 ≤ a.2) l) :
    List.Pairwise (fun a b => b.2 ≤ a.2) (insertDesc x l) := by
  induction l with
  | nil => simp [insertDesc]
  | cons y ys ih =>
    rcases List.pairwise_cons.mp hl with ⟨hy, hys⟩
    by_cases h : y.2 ≤ x.2
    · rw [insertDesc, if_pos h]
      refine List.pairwise_cons.mpr ⟨?_, hl⟩
      intro z hz
      rcases List.mem_cons.mp hz with rfl | hz
      · exact h
      · exact le_trans (hy z hz) h
    · rw [insertDesc, if_neg h]
      refine List.pairwise_cons.mpr ⟨?_, ih hys⟩
      intro z hz
      rcases (mem_insertDesc z x ys).mp hz with rfl | hz
      · exact le_of_lt (not_le.mp h)
      · exact hy z hz

/-- The stable sort is sorted by (weakly) descending similarity: distinct
scores appear strictly descending, equal scores are adjacent. -/
theorem pairwise_sortDesc (l : List (String × ℝ)) :
    List.Pairwise (fun a b => b.2 ≤ a.2) (sortDesc l) := by
  induction l with
  | nil => simp [sortDesc]
  | cons x xs ih => exact pairwise_insertDesc x (sortDesc xs) ih

/-- Filtering an insertion by score: the inserted element lands in front of
the survivors exactly when it carries the score, because every element it
was placed behind has a strictly larger score. -/
theorem filter_insertDesc (s : ℝ) (x : String × ℝ) (l : List (String × ℝ)) :
    (insertDesc x l).filter (fun m => decide (m.2 = s)) =
      if x.2 = s then x :: l.filter (fun m => decide (m.2 = s))
      else l.filter (fun m => decide (m.2 = s)) := by
  induction l with
  | nil =>
    by_cases hx : x.2 = s <;> simp [insertDesc, List.filter, hx]
  | cons y ys ih =>
    by_cases h : y.2 ≤ x.2
    · rw [insertDesc, if_pos h]
      by_cases hx : x.2 = s <;> simp [List.filter, hx]
    · rw [insertDesc, if_neg h]
      have hxy : x.2 < y.2 := not_le.mp h
      by_cases hy : y.2 = s
      · have hx : ¬ x.2 = s := by
          intro e
          exact absurd (e.trans hy.symm) (ne_of_lt hxy)
        simp [List.filter, hy, hx, ih]
      · by_cases hx : x.2 = s <;> simp [List.filter, hy, hx, ih]

/-- Stability of the sort: for every score, the entries carrying that score
appear in the sorted list exactly as they appeared in the input. -/
theorem filter_sortDesc (s : ℝ) (l : List (String × ℝ)) :
    (sortDesc l).filter (fun m => decide (m.2 = s)) =
      l.filter (fun m => decide (m.2 = s)) := by
  induction l with
  | nil => simp [sortDesc]
  | cons x xs ih =>
    rw [sortDesc, filter_insertDesc s x (sortDesc xs)]
    by_cases hx : x.2 = s <;> simp [List.filter, hx, ih]

/-- Claim C2: `findMatches` returns the names of the scored entries after a
stable descending sort — scores weakly descend along the output (so
distinct scores strictly descend), and for every score value the entries
carrying it keep exactly the relative order the mapping's iteration gave
them. -/
theorem C2_findMatches_ranking (repos : List (String × RepositoryRecord))
    (e : List ℝ) :
    findMatches repos e = (sortDesc (scoreMatches repos e)).map Prod.fst ∧
    List.Pairwise (fun a b => b.2 ≤ a.2) (sortDesc (scoreMatches repos e)) ∧
    ∀ s : ℝ, (sortDesc (scoreMatches repos e)).filter (fun m => decide (m.2 = s)) =
      (scoreMatches repos e).filter (fun m => decide (m.2 = s)) :=
  ⟨rfl, pairwise_sortDesc (scoreMatches repos e),
    fun s => filter_sortDesc s (scoreMatches repos e)⟩

/-- Scoring keeps the key of each entry. -/
theorem scoreMatches_map_fst (repos : List (String × RepositoryRecord)) (e : List ℝ) :
    (scoreMatches repos e).map Prod.fst = repos.map Prod.fst := by
  unfold scoreMatches
  rw [List.map_map]
  rfl

/-- Claim C9: the output of `findMatches` is a permutation of the mapping's
keys — every stored name appears exactly as often as it is stored,
regardless of score, and nothing else appears. -/
theorem C9_findMatches_perm_keys (repos : List (String × RepositoryRecord))
    (e : List ℝ) :
    List.Perm (findMatches repos e) (repos.map Prod.fst) := by
  have h := List.Perm.map Prod.fst (sortDesc_perm (scoreMatches repos e))
  rw [scoreMatches_map_fst] at h
  exact h

/-- Claim C8: `findMatches` leaves the router state — the repository mapping
and every record in it — unchanged, and a repeated call on the resulting
state returns the same answer. -/
theorem C8_findMatches_frame (st : RouterInit) (e : List ℝ) :
    (findMatchesOp st e).2 = st ∧
    (findMatchesOp st e).2.repositories = st.repositories ∧
    (findMatchesOp ((findMatchesOp st e).2) e).1 = (findMatchesOp st e).1 :=
  ⟨rfl, rfl, rfl⟩

/-- Membership after one set insertion. -/
theorem mem_setAdd (s : List String) (x y : String) :
    y ∈ setAdd s x ↔ y ∈ s ∨ y = x := by
  unfold setAdd
  by_cases h : x ∈ s
  · rw [if_pos h]
    constructor
    · exact Or.inl
    · rintro (hy | rfl)
      · exact hy
      · exact h
  · rw [if_neg h]
    simp

/-- Membership after folding set insertions over a list. -/
theorem mem_foldl_setAdd (l : List String) : ∀ (init : List String) (y : String),
    y ∈ l.foldl setAdd init ↔ y ∈ init ∨ y ∈ l := by
  induction l with
  | nil => simp
  | cons x xs ih =>
    intro init y
    simp only [List.foldl_cons, ih, mem_setAdd, List.mem_cons]
    tauto

/-- Appending a trailing space only adds an empty chunk. -/
theorem splitChunks_append_space (cs : List Char) : ∀ acc,
    splitChunks (cs ++ [' ']) acc = splitChunks cs acc ++ [[]] := by
  induction cs with
  | nil => intro acc; rfl
  | cons c rest ih =>
    intro acc
    simp only [List.cons_append, splitChunks, List.append_eq]
    by_cases hc : c.isWhitespace <;> simp [hc, ih]

/-- The tokens of `name + ' ' + ''` (a `null` description rendered by
`join`) are exactly the tokens of `name`: the trailing space only produces
an empty chunk, which the length filter drops. -/
theorem extractWords_trailing (s : String) :
    extractWords (s ++ " " ++ "") = extractWords s := by
  unfold extractWords
  have hdata : (s ++ " " ++ "").data = s.data ++ [' '] := by
    show s.data ++ (" ").data ++ ("").data = s.data ++ [' ']
    simp
  rw [hdata, List.map_append,
    show (([' '] : List Char).map Char.toLower) = [' '] from rfl]
  unfold sanitize
  rw [List.map_append,
    show (([' '] : List Char).map
      (fun c => if isWordChar c || c.isWhitespace then c else ' ')) = [' '] from rfl,
    splitChunks_append_space, List.map_append, List.filter_append,
    show (List.filter (fun w => decide (2 < w.length))
      (([[]] : List (List Char)).map (fun l => String.mk l))) = [] from rfl,
    List.append_nil]

/-- Claim C5: `extractKeywords` returns exactly the topics united with the
length-over-2 tokens of the lowercased, punctuation-stripped join of name
and description; on the worked example the result is exactly
`cli, go, repo, cool, tool`, and the short tokens `my` and `a` are
excluded. -/
theorem C5_extractKeywords_spec :
    (∀ (r : Repo) (x : String),
      x ∈ extractKeywords r ↔ x ∈ r.topics ∨ x ∈ extractWords (joinNameDescription r)) ∧
    extractKeywords exampleRepo = ["cli", "go", "repo", "cool", "tool"] ∧
    (extractKeywords exampleRepo).contains ("my") = false ∧
    (extractKeywords exampleRepo).contains ("a") = false := by
  refine ⟨?_, by decide, by decide, by decide⟩
  intro r x
  unfold extractKeywords
  rw [mem_foldl_setAdd, mem_foldl_setAdd]
  simp

/-- Witness for C5: the membership characterisation evaluated at the worked
example and the token `repo`. -/
theorem C5_extractKeywords_spec_witness :
    ("repo") ∈ extractKeywords exampleRepo ↔
      ("repo") ∈ exampleRepo.topics ∨
        ("repo") ∈ extractWords (joinNameDescription exampleRepo) :=
  C5_extractKeywords_spec.1 exampleRepo ("repo")

/-- Claim C10: with a `null` description the keyword set is the topics
united with the tokens of the lowercased name alone — the `null` is
rendered as the empty string by `join`, so in particular no token can come
from the description; the token `null` appears only if the topics or the
name supply it. -/
theorem C10_null_description (fn name : String) (topics : List String) :
    extractKeywords (Repo.mk fn name none topics) =
      (extractWords name).foldl setAdd (topics.foldl setAdd []) ∧
    (("null") ∉ topics → ("null") ∉ extractWords name →
      ("null") ∉ extractKeywords (Repo.mk fn name none topics)) := by
  have hwords : extractWords (joinNameDescription (Repo.mk fn name none topics)) =
      extractWords name := by
    show extractWords (name ++ " " ++ "") = extractWords name
    exact extractWords_trailing name
  have heq : extractKeywords (Repo.mk fn name none topics) =
      (extractWords name).foldl setAdd (topics.foldl setAdd []) := by
    unfold extractKeywords
    rw [hwords]
  refine ⟨heq, ?_⟩
  intro ht hw hmem
  rw [heq, mem_foldl_setAdd, mem_foldl_setAdd] at hmem
  rcases hmem with (hmem | hmem) | hmem
  · simp at hmem
  · exact ht hmem
  · exact hw hmem

/-- Witness for C10 at a concrete repository with a `null` description. -/
theorem C10_null_description_witness :
    (("null") ∉ (["cli"] : List String)) ∧ (("null") ∉ extractWords ("My-Repo!")) ∧
    ("null") ∉ extractKeywords (Repo.mk ("o/r") ("My-Repo!") none ["cli"]) :=
  ⟨by decide, by decide,
    (C10_null_description ("o/r") ("My-Repo!") ["cli"]).2 (by decide) (by decide)⟩

/-- Claim C3 as frozen is false on the code: both credentials are present
in the environment (the token as the empty string — `isSome` on both
fields), yet the constructor throws, because `!process.env.GITHUB_TOKEN`
also fires on a present-but-empty value. -/
theorem C3_construction_counterexample :
    (Option.some ("")).isSome = true ∧ (Option.some ("key")).isSome = true ∧
    (constructSmartRouter ⟨some (""), some ("key")⟩).1 =
      Except.error
        ("Missing required environment variables: GITHUB_TOKEN and/or VOYAGE_API_KEY") :=
  ⟨rfl, rfl, rfl⟩

/-- Claim C3, amended: if either credential is absent or present as the
empty string (JavaScript-falsy), construction throws the configuration
error without attempting any network call; if both are present and
non-empty, construction succeeds, also without any network call. -/
theorem C3_construction_amended (env : Env) :
    ((jsTruthy env.githubToken = false ∨ jsTruthy env.voyageApiKey = false) →
      (constructSmartRouter env).1 =
        Except.error
          ("Missing required environment variables: GITHUB_TOKEN and/or VOYAGE_API_KEY") ∧
      (constructSmartRouter env).2 = []) ∧
    (jsTruthy env.githubToken = true → jsTruthy env.voyageApiKey = true →
      (constructSmartRouter env).1 =
        Except.ok ⟨env.githubToken.getD (""), [], ("Bearer ") ++ env.voyageApiKey.getD ("")⟩ ∧
      (constructSmartRouter env).2 = []) := by
  unfold constructSmartRouter
  constructor
  · rintro (h | h) <;> simp [h]
  · intro h1 h2
    simp [h1, h2]

/-- Witness for the amended C3: a complete environment constructs with no
network call, and an environment missing the token fails with the
configuration error. -/
theorem C3_construction_amended_witness :
    (jsTruthy (Option.some ("t")) = true ∧ jsTruthy (Option.some ("k")) = true ∧
      (constructSmartRouter ⟨some ("t"), some ("k")⟩).2 = []) ∧
    (jsTruthy (Option.none) = false ∧
      (constructSmartRouter ⟨none, some ("k")⟩).1 =
        Except.error
          ("Missing required environment variables: GITHUB_TOKEN and/or VOYAGE_API_KEY")) :=
  ⟨⟨rfl, rfl, ((C3_construction_amended ⟨some ("t"), some ("k")⟩).2 rfl rfl).2⟩,
    rfl, ((C3_construction_amended ⟨none, some ("k")⟩).1 (Or.inl rfl)).1⟩

/-- Claim C4 as frozen is false on the code: the response body does contain
an error message (the empty string), but the thrown message is the generic
one, because `data.error?.message || '...'` treats the empty string as
falsy. -/
theorem C4_createEmbedding_counterexample :
    (VoyageResponse.mk false (some ("")) []).errorMessage = some ("") ∧
    (createEmbedding (Except.ok (VoyageResponse.mk false (some ("")) []))).1 =
      Except.error ("Failed to create embedding") :=
  ⟨rfl, rfl⟩

/-- Claim C4, amended: exactly one fetch per call (no retry); a
network-level failure propagates unmodified; on a non-success response the
thrown message is the provider's message when the body carries a non-empty
one, and the generic `Failed to create embedding` when the body's message
is absent or empty. -/
theorem C4_createEmbedding_amended (r : Except String VoyageResponse) :
    (createEmbedding r).2 = 1 ∧
    (∀ e, r = Except.error e → (createEmbedding r).1 = Except.error e) ∧
    (∀ resp m, r = Except.ok resp → resp.ok = false → resp.errorMessage = some m →
      m ≠ "" → (createEmbedding r).1 = Except.error m) ∧
    (∀ resp, r = Except.ok resp → resp.ok = false →
      (resp.errorMessage = none ∨ resp.errorMessage = some ("")) →
      (createEmbedding r).1 = Except.error ("Failed to create embedding")) := by
  refine ⟨rfl, ?_, ?_, ?_⟩
  · rintro e rfl
    rfl
  · rintro resp m rfl hok hmsg hne
    unfold createEmbedding processVoyageResponse
    dsimp only
    rw [hok, hmsg]
    simp [hne]
  · rintro resp rfl hok hmsg
    unfold createEmbedding processVoyageResponse
    dsimp only
    rw [hok]
    rcases hmsg with hmsg | hmsg <;> rw [hmsg] <;> simp

/-- Witness for the amended C4: a concrete non-empty provider message is
rethrown verbatim by a failing response, a network error propagates
unchanged, and exactly one fetch is consumed. -/
theorem C4_createEmbedding_amended_witness :
    (createEmbedding (Except.ok (VoyageResponse.mk false (some ("boom")) []))).2 = 1 ∧
    (("boom") : String) ≠ "" ∧
    (createEmbedding (Except.ok (VoyageResponse.mk false (some ("boom")) []))).1 =
      Except.error ("boom") ∧
    (createEmbedding (Except.error ("net down"))).1 = Except.error ("net down") := by
  refine ⟨(C4_createEmbedding_amended (Except.ok (VoyageResponse.mk false (some ("boom")) []))).1,
    by decide, ?_, ?_⟩
  · exact (C4_createEmbedding_amended
      (Except.ok (VoyageResponse.mk false (some ("boom")) []))).2.2.1
      (VoyageResponse.mk false (some ("boom")) []) ("boom") rfl rfl rfl (by decide)
  · exact (C4_createEmbedding_amended (Except.error ("net down"))).2.1 ("net down") rfl

/-- An object assignment never removes a key. -/
theorem keys_mapSet (st : List (String × RepositoryRecord)) (k : String)
    (v : RepositoryRecord) (k0 : String) (h : k0 ∈ st.map Prod.fst) :
    k0 ∈ (mapSet st k v).map Prod.fst := by
  unfold mapSet
  by_cases hc : st.any (fun p => p.1 == k)
  · rw [if_pos hc, List.map_map]
    rcases List.mem_map.mp h with ⟨p, hp, rfl⟩
    refine List.mem_map.mpr ⟨p, hp, ?_⟩
    by_cases hpk : p.1 == k
    · show ((if p.1 == k then (k, v) else p).1) = p.1
      rw [if_pos hpk]
      exact (eq_of_beq hpk).symm
    · show ((if p.1 == k then (k, v) else p).1) = p.1
      rw [if_neg hpk]
  · rw [if_neg hc, List.map_append]
    exact List.mem_append_left _ h

/-- Processing repositories never removes a committed key, whether or not
an embedding call fails along the way. -/
theorem processRepositories_keys (w : World) (repos : List Repo) :
    ∀ (st : List (String × RepositoryRecord)) (k0 : String),
      k0 ∈ st.map Prod.fst →
      k0 ∈ (processRepositories w repos st).state.map Prod.fst := by
  induction repos with
  | nil =>
    intro st k0 h
    exact h
  | cons repo rest ih =>
    intro st k0 h
    unfold processRepositories
    dsimp only
    cases hres : w.embedResult (repo.description.getD ("") ++ " " ++
        String.intercalate (" ") (extractKeywords repo)) with
    | error e => exact h
    | ok emb => exact ih _ k0 (keys_mapSet st repo.full_name _ k0 h)

/-- A failing repository-processing run fails with the error of an
embedding call, verbatim. -/
theorem processRepositories_error (w : World) (repos : List Repo) :
    ∀ (st : List (String × RepositoryRecord)) (e : String),
      (processRepositories w repos st).error = some e →
      ∃ t, w.embedResult t = Except.error e := by
  induction repos with
  | nil =>
    intro st e h
    exact absurd h (by simp [processRepositories])
  | cons repo rest ih =>
    intro st e h
    unfold processRepositories at h
    dsimp only at h
    cases hres : w.embedResult (repo.description.getD ("") ++ " " ++
        String.intercalate (" ") (extractKeywords repo)) with
    | error e0 =>
      rw [hres] at h
      refine ⟨_, hres.trans ?_⟩
      cases h
      rfl
    | ok emb =>
      rw [hres] at h
      exact ih _ e h

/-- The committed mapping after processing is the initial mapping with some
sequence of record commits applied — nothing is ever removed. -/
theorem processRepositories_commits (w : World) (repos : List Repo) :
    ∀ st : List (String × RepositoryRecord),
      ∃ cs : List (String × RepositoryRecord),
        (processRepositories w repos st).state =
          cs.foldl (fun s p => mapSet s p.1 p.2) st := by
  induction repos with
  | nil =>
    intro st
    exact ⟨[], rfl⟩
  | cons repo rest ih =>
    intro st
    unfold processRepositories
    dsimp only
    cases hres : w.embedResult (repo.description.getD ("") ++ " " ++
        String.intercalate (" ") (extractKeywords repo)) with
    | error e => exact ⟨[], rfl⟩
    | ok emb =>
      rcases ih (mapSet st repo.full_name ⟨repo.description.getD (""), extractKeywords repo, emb⟩)
        with ⟨cs, hcs⟩
      exact ⟨(repo.full_name, ⟨repo.description.getD (""), extractKeywords repo, emb⟩) :: cs, hcs⟩

/-- A failing organisation loop fails with the error of an organisation
listing or of an embedding call, verbatim. -/
theorem initOrgs_error (w : World) (orgs : List String) :
    ∀ (st : List (String × RepositoryRecord)) (e : String),
      (initOrgs w orgs st).error = some e →
      (∃ org, w.orgReposResult org = Except.error e) ∨
        (∃ t, w.embedResult t = Except.error e) := by
  induction orgs with
  | nil =>
    intro st e h
    exact absurd h (by simp [initOrgs])
  | cons org rest ih =>
    intro st e h
    unfold initOrgs at h
    cases hres : w.orgReposResult org with
    | error e0 =>
      rw [hres] at h
      refine Or.inl ⟨org, hres.trans ?_⟩
      cases h
      rfl
    | ok repos =>
      rw [hres] at h
      dsimp only at h
      cases hout : (processRepositories w repos st).error with
      | some e0 =>
        rw [hout] at h
        dsimp only at h
        exact Or.inr (processRepositories_error w repos st e h)
      | none =>
        rw [hout] at h
        exact ih _ e h

/-- The organisation loop never removes a committed key. -/
theorem initOrgs_keys (w : World) (orgs : List String) :
    ∀ (st : List (String × RepositoryRecord)) (k0 : String),
      k0 ∈ st.map Prod.fst → k0 ∈ (initOrgs w orgs st).state.map Prod.fst := by
  induction orgs with
  | nil =>
    intro st k0 h
    exact h
  | cons org rest ih =>
    intro st k0 h
    unfold initOrgs
    cases hres : w.orgReposResult org with
    | error e => exact h
    | ok repos =>
      dsimp only
      cases hout : (processRepositories w repos st).error with
      | some e => exact processRepositories_keys w repos st k0 h
      | none => exact ih _ k0 (processRepositories_keys w repos st k0 h)

/-- The mapping the organisation loop leaves behind is its input with some
sequence of commits applied. -/
theorem initOrgs_commits (w : World) (orgs : List String) :
    ∀ st : List (String × RepositoryRecord),
      ∃ cs : List (String × RepositoryRecord),
        (initOrgs w orgs st).state = cs.foldl (fun s p => mapSet s p.1 p.2) st := by
  induction orgs with
  | nil =>
    intro st
    exact ⟨[], rfl⟩
  | cons org rest ih =>
    intro st
    unfold initOrgs
    cases hres : w.orgReposResult org with
    | error e => exact ⟨[], rfl⟩
    | ok repos =>
      dsimp only
      cases hout : (processRepositories w repos st).error with
      | some e => exact processRepositories_commits w repos st
      | none =>
        rcases processRepositories_commits w repos st with ⟨cs1, h1⟩
        rcases ih ((processRepositories w repos st).state) with ⟨cs2, h2⟩
        refine ⟨cs1 ++ cs2, ?_⟩
        rw [h2, h1, List.foldl_append]

/-- Claim C7: a failing initialisation aborts — its recorded error is,
verbatim, the error of one of the external calls the world can produce —
and the mapping is never rolled back: a key committed before the failure is
still present afterwards, and the final mapping is exactly a sequence of
record commits applied to the empty mapping. -/
theorem C7_init_failure_no_rollback (w : World) :
    (∀ e, (initRouter w).error = some e → worldError w e) ∧
    (∀ (repos : List Repo) (st : List (String × RepositoryRecord)) (k0 : String),
      k0 ∈ st.map Prod.fst →
      k0 ∈ (processRepositories w repos st).state.map Prod.fst) ∧
    (∃ cs : List (String × RepositoryRecord),
      (initRouter w).state = cs.foldl (fun s p => mapSet s p.1 p.2) []) := by
  refine ⟨?_, fun repos st k0 h => processRepositories_keys w repos st k0 h, ?_⟩
  · intro e h
    unfold initRouter at h
    cases horgs : w.orgsResult with
    | error e0 =>
      rw [horgs] at h
      cases h
      exact Or.inl horgs
    | ok orgs =>
      rw [horgs] at h
      cases huser : w.userReposResult with
      | error e0 =>
        rw [huser] at h
        cases h
        exact Or.inr (Or.inl huser)
      | ok userRepos =>
        rw [huser] at h
        dsimp only at h
        cases hout : (processRepositories w userRepos []).error with
        | some e0 =>
          rw [hout] at h
          dsimp only at h
          exact Or.inr (Or.inr (Or.inr (processRepositories_error w userRepos [] e h)))
        | none =>
          rw [hout] at h
          rcases initOrgs_error w orgs _ e h with ⟨org, horg⟩ | ⟨t, ht⟩
          · exact Or.inr (Or.inr (Or.inl ⟨org, horg⟩))
          · exact Or.inr (Or.inr (Or.inr ⟨t, ht⟩))
  · unfold initRouter
    cases horgs : w.orgsResult with
    | error e0 => exact ⟨[], rfl⟩
    | ok orgs =>
      cases huser : w.userReposResult with
      | error e0 => exact ⟨[], rfl⟩
      | ok userRepos =>
        dsimp only
        cases hout : (processRepositories w userRepos []).error with
        | some e0 => exact processRepositories_commits w userRepos []
        | none =>
          rcases processRepositories_commits w userRepos [] with ⟨cs1, h1⟩
          rcases initOrgs_commits w orgs ((processRepositories w userRepos []).state)
            with ⟨cs2, h2⟩
          refine ⟨cs1 ++ cs2, ?_⟩
          rw [h2, h1, List.foldl_append]

/-- Witness for C7: in the world whose organisation listing fails, the
initialisation reports exactly that error, and it is one of the world's. -/
theorem C7_init_failure_no_rollback_witness :
    (initRouter failingWorld).error = some ("org listing failed") ∧
    worldError failingWorld ("org listing failed") :=
  ⟨rfl, (C7_init_failure_no_rollback failingWorld).1 ("org listing failed") rfl⟩

end SmartRouter
